import Mathlib

/-!
Verification of the MAT-Knowledge-Graph-Chatbot core against its
natural-language specification.  The Python sources under `src/` are
shallowly embedded below: Python `str` values become `String` (reasoned
about through their underlying `List Char`), pandas frames become lists
of indexed rows, fallible operations return `Except String`, and the
external collaborators (sklearn vectorizer, language model, graph store)
become function parameters, exactly as the spec's component boundaries
prescribe.
-/

namespace MatChatbot

/-! ## Python string primitives over `List Char`

`str.strip()`, `str.split(sep)`, `sep.join(...)` and slicing are modelled
by structurally recursive functions on the character list of a `String`.
Note: Lean's `Char.isWhitespace` covers `' '`, `'\t'`, `'\n'`, `'\r'`;
Python's `str.strip()` additionally strips `'\x0b'`/`'\x0c'`, which no
claim exercises.
-/

/-- `str.lstrip()`: drop leading whitespace. -/
def stripL (l : List Char) : List Char := l.dropWhile Char.isWhitespace

/-- `str.rstrip()`: drop the maximal trailing run of whitespace. -/
def stripR : List Char → List Char
  | [] => []
  | c :: rest =>
    match stripR rest with
    | [] => if c.isWhitespace then [] else [c]
    | r => c :: r

/-- `str.strip()`: drop whitespace at both ends. -/
def pyStrip (l : List Char) : List Char := stripR (stripL l)

/-- `str.split(sep)` for a one-character separator `sep`: maximal split,
returning the (always non-empty) list of fragments between occurrences of
`sep`.  `pySplit c [] = [[]]`, matching Python's `"".split(c) == ['']`. -/
def pySplit (sep : Char) : List Char → List (List Char)
  | [] => [[]]
  | c :: rest =>
    if c = sep then [] :: pySplit sep rest
    else
      match pySplit sep rest with
      | [] => [[c]]
      | f :: fs => (c :: f) :: fs

/-- `sep.join(fragments)` for a one-character separator. -/
def pyJoin (sep : Char) (ls : List (List Char)) : List Char :=
  List.intercalate [sep] ls

theorem pySplit_ne_nil (sep : Char) (l : List Char) : pySplit sep l ≠ [] := by
  cases l with
  | nil => simp [pySplit]
  | cons c rest =>
    simp only [pySplit]
    by_cases h : c = sep
    · simp [h]
    · simp only [if_neg h]
      cases pySplit sep rest <;> simp

/-- Splitting then joining recovers the original character list
(`sep.join(s.split(sep)) == s`). -/
theorem pyJoin_pySplit (sep : Char) (l : List Char) :
    pyJoin sep (pySplit sep l) = l := by
  induction l with
  | nil => simp [pySplit, pyJoin, List.intercalate]
  | cons c rest ih =>
    simp only [pySplit]
    by_cases h : c = sep
    · subst h
      simp only [if_pos rfl, pyJoin, List.intercalate] at *
      cases hs : pySplit c rest with
      | nil => exact absurd hs (pySplit_ne_nil c rest)
      | cons f fs =>
        rw [hs] at ih
        simpa [List.intersperse] using ih
    · simp only [if_neg h]
      cases hs : pySplit sep rest with
      | nil => exact absurd hs (pySplit_ne_nil sep rest)
      | cons f fs =>
        rw [hs] at ih
        simp only [pyJoin, List.intercalate] at *
        cases fs <;> simp_all [List.intersperse]

/-! ### Strip lemmas -/

theorem stripR_cons (c : Char) (l : List Char) :
    stripR (c :: l) =
      if stripR l = [] then (if c.isWhitespace then [] else [c])
      else c :: stripR l := by
  simp only [stripR]
  cases stripR l <;> simp

theorem stripR_eq_nil_iff (l : List Char) :
    stripR l = [] ↔ ∀ c ∈ l, c.isWhitespace := by
  induction l with
  | nil => simp [stripR]
  | cons c rest ih =>
    rw [stripR_cons]
    by_cases hr : stripR rest = []
    · rw [if_pos hr]
      by_cases hw : c.isWhitespace
      · rw [if_pos hw]
        constructor
        · intro _ d hd
          rcases List.mem_cons.mp hd with h | h
          · exact h ▸ hw
          · exact ih.mp hr d h
        · intro _; rfl
      · simp [hw]
    · simp only [if_neg hr]
      constructor
      · intro h; simp at h
      · intro h
        exact absurd (ih.mpr (fun d hd => h d (List.mem_cons_of_mem _ hd))) hr

theorem stripL_idem (l : List Char) : stripL (stripL l) = stripL l := by
  unfold stripL
  induction l with
  | nil => simp
  | cons c rest ih =>
    by_cases hw : c.isWhitespace
    · simpa [List.dropWhile_cons, hw] using ih
    · simp [List.dropWhile_cons, hw]

theorem stripR_idem (l : List Char) : stripR (stripR l) = stripR l := by
  induction l with
  | nil => simp [stripR]
  | cons c rest ih =>
    rw [stripR_cons]
    by_cases hr : stripR rest = []
    · by_cases hw : c.isWhitespace <;> simp [hr, hw, stripR]
    · rw [if_neg hr, stripR_cons, ih, if_neg hr]

theorem stripL_stripR_comm (l : List Char) :
    stripL (stripR l) = stripR (stripL l) := by
  induction l with
  | nil => simp [stripL, stripR]
  | cons c rest ih =>
    by_cases hw : c.isWhitespace
    · have hL : stripL (c :: rest) = stripL rest := by
        simp [stripL, List.dropWhile_cons, hw]
      rw [hL, ← ih]
      simp only [stripR]
      cases hr : stripR rest with
      | nil => simp [hw, stripL]
      | cons x xs => simp [stripL, List.dropWhile_cons, hw]
    · have hL : stripL (c :: rest) = c :: rest := by
        simp [stripL, List.dropWhile_cons, hw]
      rw [hL]
      simp only [stripR]
      cases hr : stripR rest with
      | nil => simp [hw, stripL, List.dropWhile_cons]
      | cons x xs => simp [stripL, List.dropWhile_cons, hw]

theorem pyStrip_stripR (l : List Char) : pyStrip (stripR l) = pyStrip l := by
  unfold pyStrip
  rw [stripL_stripR_comm, stripR_idem]

theorem pyStrip_idem (l : List Char) : pyStrip (pyStrip l) = pyStrip l := by
  unfold pyStrip
  rw [stripL_stripR_comm, stripR_idem, stripL_idem]

/-- A non-whitespace final character survives both strips:
`(y ++ [c]).strip() = y.lstrip() ++ [c]`. -/
theorem pyStrip_concat (y : List Char) (c : Char) (hc : ¬ c.isWhitespace) :
    pyStrip (y ++ [c]) = stripL y ++ [c] := by
  have hL : stripL (y ++ [c]) = stripL y ++ [c] := by
    unfold stripL
    induction y with
    | nil => simp [List.dropWhile_cons, hc]
    | cons d rest ih =>
      by_cases hd : d.isWhitespace
      · simpa [List.dropWhile_cons, hd] using ih
      · simp [List.dropWhile_cons, hd]
  have hR : ∀ z : List Char, stripR (z ++ [c]) = z ++ [c] := by
    intro z
    induction z with
    | nil => simp [stripR, hc]
    | cons d rest ih =>
      rw [List.cons_append, stripR_cons, ih]
      simp
  unfold pyStrip
  rw [hL, hR]

/-! ### Split lemmas -/

theorem pySplit_cons_ne (sep c : Char) (l : List Char) (h : c ≠ sep) :
    pySplit sep (c :: l) =
      (c :: (pySplit sep l).headD []) :: (pySplit sep l).tail := by
  simp only [pySplit, if_neg h]
  cases hs : pySplit sep l with
  | nil => exact absurd hs (pySplit_ne_nil sep l)
  | cons f fs => rfl

theorem pySplit_cons_sep (sep : Char) (l : List Char) :
    pySplit sep (sep :: l) = [] :: pySplit sep l := by
  simp [pySplit]

/-- A list without the separator splits into a single fragment. -/
theorem pySplit_of_not_mem (sep : Char) (l : List Char) (h : sep ∉ l) :
    pySplit sep l = [l] := by
  induction l with
  | nil => simp [pySplit]
  | cons c rest ih =>
    have hc : c ≠ sep := fun hc => h (hc ▸ List.mem_cons_self c rest)
    have hr : sep ∉ rest := fun hr => h (List.mem_cons_of_mem _ hr)
    rw [pySplit_cons_ne sep c rest hc, ih hr]
    rfl

/-- Appending a separator appends an empty final fragment. -/
theorem pySplit_concat_sep (sep : Char) (l : List Char) :
    pySplit sep (l ++ [sep]) = pySplit sep l ++ [[]] := by
  induction l with
  | nil => simp [pySplit]
  | cons c rest ih =>
    by_cases hc : c = sep
    · subst hc
      rw [List.cons_append, pySplit_cons_sep, pySplit_cons_sep, ih]
      rfl
    · rw [List.cons_append, pySplit_cons_ne sep c _ hc, pySplit_cons_ne sep c _ hc, ih]
      cases hs : pySplit sep rest with
      | nil => exact absurd hs (pySplit_ne_nil sep rest)
      | cons f fs => simp

/-- `lstrip` only affects the first fragment of a split (separator is not
whitespace). -/
theorem pySplit_stripL (sep : Char) (hsep : ¬ sep.isWhitespace) (l : List Char) :
    pySplit sep (stripL l) =
      stripL ((pySplit sep l).headD []) :: (pySplit sep l).tail := by
  induction l with
  | nil => simp [pySplit, stripL]
  | cons c rest ih =>
    by_cases hw : c.isWhitespace
    · have hc : c ≠ sep := fun h => hsep (h ▸ hw)
      have h1 : stripL (c :: rest) = stripL rest := by
        simp [stripL, List.dropWhile_cons, hw]
      rw [h1, ih, pySplit_cons_ne sep c rest hc]
      have h2 : stripL (c :: (pySplit sep rest).headD []) =
          stripL ((pySplit sep rest).headD []) := by
        simp [stripL, List.dropWhile_cons, hw]
      rw [List.headD_cons, List.tail_cons, h2]
    · have h1 : stripL (c :: rest) = c :: rest := by
        simp [stripL, List.dropWhile_cons, hw]
      rw [h1]
      by_cases hc : c = sep
      · subst hc
        rw [pySplit_cons_sep]
        simp [stripL]
      · rw [pySplit_cons_ne sep c rest hc]
        have h2 : stripL (c :: (pySplit sep rest).headD []) =
            c :: (pySplit sep rest).headD [] := by
          simp [stripL, List.dropWhile_cons, hw]
        rw [List.headD_cons, List.tail_cons, h2]

/-- `rstrip` only affects the last fragment of a split (separator is not
whitespace). -/
theorem pySplit_stripR (sep : Char) (hsep : ¬ sep.isWhitespace) (l : List Char) :
    pySplit sep (stripR l) =
      (pySplit sep l).dropLast ++ [stripR ((pySplit sep l).getLastD [])] := by
  induction l with
  | nil => simp [pySplit, stripR]
  | cons c rest ih =>
    by_cases hr : stripR rest = []
    · have hall : ∀ d ∈ rest, d.isWhitespace := (stripR_eq_nil_iff rest).mp hr
      have hnos : sep ∉ rest := fun hmem => hsep (hall sep hmem)
      have hsplit : pySplit sep rest = [rest] := pySplit_of_not_mem sep rest hnos
      by_cases hw : c.isWhitespace
      · have hc : c ≠ sep := fun h => hsep (h ▸ hw)
        have h1 : stripR (c :: rest) = [] := by
          rw [stripR_cons, if_pos hr, if_pos hw]
        rw [h1, pySplit_cons_ne sep c rest hc, hsplit]
        simp [pySplit, h1]
      · have h1 : stripR (c :: rest) = [c] := by
          rw [stripR_cons, if_pos hr, if_neg hw]
        rw [h1]
        by_cases hc : c = sep
        · subst hc
          rw [pySplit_cons_sep, pySplit_cons_sep, hsplit]
          simp [pySplit, hr]
        · rw [pySplit_cons_ne sep c rest hc, hsplit,
            pySplit_of_not_mem sep [c] (by simp [Ne.symm hc])]
          simp [h1]
    · have h1 : stripR (c :: rest) = c :: stripR rest := by
        rw [stripR_cons, if_neg hr]
      rw [h1]
      by_cases hc : c = sep
      · subst hc
        rw [pySplit_cons_sep, pySplit_cons_sep, ih]
        cases hs : pySplit c rest with
        | nil => exact absurd hs (pySplit_ne_nil c rest)
        | cons f fs => simp
      · rw [pySplit_cons_ne sep c _ hc, ih, pySplit_cons_ne sep c rest hc]
        cases hs : pySplit sep rest with
        | nil => exact absurd hs (pySplit_ne_nil sep rest)
        | cons f fs =>
          cases fs with
          | nil =>
            have hrf : rest = f := by
              have := pyJoin_pySplit sep rest
              rw [hs] at this
              simpa [pyJoin, List.intercalate, List.intersperse] using this.symm
            simp only [List.headD_cons, List.tail_cons, List.dropLast_single,
              List.getLastD_cons, List.getLastD_nil, List.dropLast_nil,
              List.nil_append]
            have hf : stripR f ≠ [] := hrf ▸ hr
            rw [stripR_cons, if_neg hf]
          | cons g gs => simp

/-! ## Response post-processor (`RAGSystem._clean_response`,
`src/rag_system.py` lines 200-211)

```python
sentences = response.split('.')
if len(sentences) > 1 and len(sentences[-1].strip()) < 10:
    response = '.'.join(sentences[:-1]) + '.'
if len(response) > 500:
    response = response[:500] + "..."
return response.strip()
```
-/

/-- The sentence-drop step: drop the final fragment after the last `'.'`
when it has fewer than 10 characters once stripped (and there is more than
one fragment), rejoining with `'.'`. -/
def dropTrailingFragment (response : List Char) : List Char :=
  let sentences := pySplit '.' response
  if 1 < sentences.length ∧ (pyStrip (sentences.getLastD [])).length < 10 then
    pyJoin '.' sentences.dropLast ++ ['.']
  else response

/-- The hard-truncation step: `response[:500] + "..."` when longer than 500. -/
def truncate500 (response : List Char) : List Char :=
  if 500 < response.length then response.take 500 ++ ['.', '.', '.']
  else response

/-- `RAGSystem._clean_response` on the character list. -/
def clean_response_list (response : List Char) : List Char :=
  pyStrip (truncate500 (dropTrailingFragment response))

/-- `RAGSystem._clean_response`. -/
def clean_response (s : String) : String := ⟨clean_response_list s.data⟩

/-- The guard of the sentence-drop step. -/
def condHolds (m : List Char) : Prop :=
  1 < (pySplit '.' m).length ∧ (pyStrip ((pySplit '.' m).getLastD [])).length < 10

instance (m : List Char) : Decidable (condHolds m) := by
  unfold condHolds; infer_instance

theorem dropTrailingFragment_eq (l : List Char) :
    dropTrailingFragment l =
      if condHolds l then pyJoin '.' ((pySplit '.' l).dropLast) ++ ['.'] else l := rfl

theorem getLastD_append_single {α : Type} (l : List α) (a d : α) :
    (l ++ [a]).getLastD d = a := by
  induction l generalizing d with
  | nil => rfl
  | cons x xs ih =>
    rw [List.cons_append, List.getLastD_cons]
    exact ih x

theorem getLastD_irrel {α : Type} (l : List α) (h : l ≠ []) (d d' : α) :
    l.getLastD d = l.getLastD d' := by
  cases l with
  | nil => exact absurd rfl h
  | cons x xs => rw [List.getLastD_cons, List.getLastD_cons]

/-- The sentence-drop step is the identity on dot-terminated text: the empty
final fragment is dropped and the rejoin restores the input. -/
theorem dropTrailingFragment_concat_dot (y : List Char) :
    dropTrailingFragment (y ++ ['.']) = y ++ ['.'] := by
  rw [dropTrailingFragment_eq]
  have hs : pySplit '.' (y ++ ['.']) = pySplit '.' y ++ [[]] :=
    pySplit_concat_sep '.' y
  have hcond : condHolds (y ++ ['.']) := by
    constructor
    · rw [hs, List.length_append]
      have := pySplit_ne_nil '.' y
      have : 0 < (pySplit '.' y).length := List.length_pos.mpr this
      simpa using this
    · rw [hs, getLastD_append_single]
      simp [pyStrip, stripL, stripR]
  rw [if_pos hcond, hs, List.dropLast_concat, pyJoin_pySplit]

/-- Stripping preserves failure of the sentence-drop guard. -/
theorem condHolds_pyStrip (l : List Char) (h : ¬ condHolds l) :
    ¬ condHolds (pyStrip l) := by
  have hdot : ¬ ('.' : Char).isWhitespace := by decide
  have hSL := pySplit_stripL '.' hdot l
  have hSR := pySplit_stripR '.' hdot (stripL l)
  have hps : pySplit '.' (pyStrip l) =
      (pySplit '.' (stripL l)).dropLast ++
        [stripR ((pySplit '.' (stripL l)).getLastD [])] := hSR
  cases hsp : pySplit '.' l with
  | nil => exact absurd hsp (pySplit_ne_nil '.' l)
  | cons f fs =>
    rw [hsp] at hSL
    simp only [List.headD_cons, List.tail_cons] at hSL
    cases fs with
    | nil =>
      -- a single fragment: the stripped string also has a single fragment
      intro hcond
      have : pySplit '.' (pyStrip l) = [stripR (stripL f)] := by
        rw [hps, hSL]
        simp
      unfold condHolds at hcond
      rw [this] at hcond
      simp at hcond
    | cons g gs =>
      -- more than one fragment: the guard failed on the length of the
      -- stripped last fragment, which stripping the whole string preserves
      have hlast : ¬ (pyStrip ((pySplit '.' l).getLastD [])).length < 10 := by
        intro hlt
        exact h ⟨by rw [hsp]; simp, hlt⟩
      intro hcond
      apply hlast
      have h2 := hcond.2
      rw [hps, hSL] at h2
      rw [getLastD_append_single] at h2
      have hgl : (stripL f :: g :: gs).getLastD [] = (g :: gs).getLastD [] := by
        simp [List.getLastD_cons]
      rw [hgl] at h2
      rw [pyStrip_stripR] at h2
      rw [hsp]
      have : (f :: g :: gs).getLastD [] = (g :: gs).getLastD [] := by
        simp [List.getLastD_cons]
      rw [this]
      exact h2

/-- C7 core: on any input whose post-processed form has at most 500
characters, the post-processor is idempotent. -/
theorem clean_response_list_idem (l : List Char)
    (hlen : (clean_response_list l).length ≤ 500) :
    clean_response_list (clean_response_list l) = clean_response_list l := by
  set r := clean_response_list l with hr
  have hdot : ¬ ('.' : Char).isWhitespace := by decide
  have hdrop : dropTrailingFragment r = r := by
    rw [hr]
    unfold clean_response_list truncate500
    by_cases h5 : 500 < (dropTrailingFragment l).length
    · rw [if_pos h5]
      have : (dropTrailingFragment l).take 500 ++ ['.', '.', '.'] =
          ((dropTrailingFragment l).take 500 ++ ['.', '.']) ++ ['.'] := by simp
      rw [this, pyStrip_concat _ _ hdot]
      exact dropTrailingFragment_concat_dot _
    · rw [if_neg h5]
      by_cases hcond : condHolds l
      · have hin : dropTrailingFragment l =
            pyJoin '.' ((pySplit '.' l).dropLast) ++ ['.'] := by
          rw [dropTrailingFragment_eq, if_pos hcond]
        rw [hin, pyStrip_concat _ _ hdot]
        exact dropTrailingFragment_concat_dot _
      · have hin : dropTrailingFragment l = l := by
          rw [dropTrailingFragment_eq, if_neg hcond]
        rw [hin, dropTrailingFragment_eq,
          if_neg (condHolds_pyStrip l hcond)]
  unfold clean_response_list
  rw [hdrop]
  unfold truncate500
  rw [if_neg (by omega : ¬ 500 < r.length)]
  rw [hr]
  unfold clean_response_list
  exact pyStrip_idem _

set_option maxRecDepth 100000 in
/-- C7 (counterexample): the post-processor is NOT idempotent as claimed.
On the 503-character input `" " ++ "a"*502`, the first application truncates
to 500 characters, appends `"..."` and strips the leading blank, leaving 502
characters; the second application truncates again and appends another
marker, yielding a different (503-character) string. -/
theorem c7_clean_response_not_idempotent :
    clean_response (clean_response ⟨' ' :: List.replicate 502 'a'⟩) ≠
      clean_response ⟨' ' :: List.replicate 502 'a'⟩ := by
  decide

/-- C7 (amended): the post-processor is idempotent on every input whose
post-processed output has at most 500 characters (in particular on all
inputs that escape re-truncation); re-application can differ only when the
first output still exceeds 500 characters, which the leading-whitespace
strip after truncation makes possible. -/
theorem c7_clean_response_idem_of_short (s : String)
    (h : (clean_response s).length ≤ 500) :
    clean_response (clean_response s) = clean_response s := by
  unfold clean_response at *
  apply congrArg String.mk
  exact clean_response_list_idem s.data h

/-- C7 witness: the amended idempotence applied at a concrete input. -/
theorem c7_clean_response_idem_witness :
    (clean_response "A useful answer about MAT standards.").length ≤ 500 ∧
      clean_response (clean_response "A useful answer about MAT standards.") =
        clean_response "A useful answer about MAT standards." :=
  ⟨by decide, c7_clean_response_idem_of_short _ (by decide)⟩

/-! ## Document retriever (`DocumentRetriever`, `src/retriever.py`)

The TF-IDF vectorizer and `cosine_similarity` are sklearn collaborators
(spec §1 excludes vectorization as external); the cosine-similarity row
`similarities` is therefore a parameter of the embedded `retrieve`.  Two
documents with identical text receive identical TF-IDF vectors, hence
identical similarities; a query with zero vocabulary overlap projects to
the zero vector, whose cosine row is identically zero.

`np.argsort` (ascending; stable on the small arrays where numpy switches
to insertion sort, so ties keep ascending index order) is embedded as a
stable insertion sort on the index list. -/

/-- A document row of the retriever's frame (columns `text`, `source_url`). -/
structure DocRow where
  text : String
  source_url : String
deriving DecidableEq

/-- A retrieval result dict (`{'text', 'source_url', 'similarity', 'index'}`). -/
structure RetrievalResult where
  text : String
  source_url : String
  similarity : ℚ
  index : ℕ
deriving DecidableEq

/-- `similarities[i]` (0 out of range; call sites keep lengths equal). -/
def valAt (sims : List ℚ) (i : ℕ) : ℚ := sims.getD i 0

/-- Insert index `i` into an ascending-sorted index list, after all indices
of equal similarity (stability). -/
def insertAsc (sims : List ℚ) (i : ℕ) : List ℕ → List ℕ
  | [] => [i]
  | j :: rest =>
    if valAt sims i < valAt sims j then i :: j :: rest
    else j :: insertAsc sims i rest

/-- `np.argsort(similarities)`: indices sorted by ascending similarity,
ties by ascending index. -/
def argsort (sims : List ℚ) : List ℕ :=
  (List.range sims.length).foldl (fun acc i => insertAsc sims i acc) []

/-- Python slice `a[-k:]` (note `a[-0:]` is all of `a`). -/
def sliceLastK (k : ℕ) (l : List ℕ) : List ℕ :=
  if k = 0 then l else l.drop (l.length - k)

/-- `DocumentRetriever.retrieve` (lines 51-77): top-k indices by
`np.argsort(similarities)[-k:][::-1]`, keeping only strictly positive
similarities. -/
def retrieve (documents : List DocRow) (sims : List ℚ) (k : ℕ) :
    List RetrievalResult :=
  let top_indices := (sliceLastK k (argsort sims)).reverse
  (top_indices.filter (fun idx => 0 < valAt sims idx)).map (fun idx =>
    { text := (documents.getD idx ⟨"", ""⟩).text
      source_url := (documents.getD idx ⟨"", ""⟩).source_url
      similarity := valAt sims idx
      index := idx })

/-- The ordering claimed by the spec: descending similarity, exact ties
broken by ascending original index. -/
def specOrdered (l : List RetrievalResult) : Prop :=
  l.Pairwise (fun r r' =>
    r'.similarity < r.similarity ∨
      (r.similarity = r'.similarity ∧ r.index < r'.index))

instance (l : List RetrievalResult) : Decidable (specOrdered l) := by
  unfold specOrdered
  infer_instance

/-- The ordering the code actually produces: descending similarity, exact
ties broken by DESCENDING original index. -/
def codeOrdered (l : List RetrievalResult) : Prop :=
  l.Pairwise (fun r r' =>
    r'.similarity < r.similarity ∨
      (r.similarity = r'.similarity ∧ r'.index < r.index))

/-- Ascending lexicographic order on indices by (similarity, index). -/
def ascLex (sims : List ℚ) (i j : ℕ) : Prop :=
  valAt sims i < valAt sims j ∨ (valAt sims i = valAt sims j ∧ i < j)

theorem mem_insertAsc (sims : List ℚ) (i : ℕ) (l : List ℕ) (x : ℕ) :
    x ∈ insertAsc sims i l ↔ x = i ∨ x ∈ l := by
  induction l with
  | nil => simp [insertAsc]
  | cons j rest ih =>
    simp only [insertAsc]
    by_cases h : valAt sims i < valAt sims j
    · simp [h]
    · simp only [if_neg h, List.mem_cons, ih]
      tauto

theorem pairwise_insertAsc (sims : List ℚ) (i : ℕ) (l : List ℕ)
    (hp : l.Pairwise (ascLex sims)) (hb : ∀ j ∈ l, j < i) :
    (insertAsc sims i l).Pairwise (ascLex sims) := by
  induction l with
  | nil => simp [insertAsc]
  | cons j rest ih =>
    rw [List.pairwise_cons] at hp
    simp only [insertAsc]
    by_cases h : valAt sims i < valAt sims j
    · rw [if_pos h]
      refine List.Pairwise.cons ?_ (List.Pairwise.cons hp.1 hp.2)
      intro x hx
      rcases List.mem_cons.mp hx with rfl | hx
      · exact Or.inl h
      · rcases hp.1 x hx with h' | h'
        · exact Or.inl (h.trans h')
        · exact Or.inl (h'.1 ▸ h)
    · rw [if_neg h]
      refine List.Pairwise.cons ?_ (ih hp.2 (fun x hx => hb x (List.mem_cons_of_mem _ hx)))
      intro x hx
      rcases (mem_insertAsc sims i rest x).mp hx with rfl | hx
      · rcases lt_or_eq_of_le (not_lt.mp h) with h' | h'
        · exact Or.inl h'
        · exact Or.inr ⟨h', hb j (List.mem_cons_self j rest)⟩
      · exact hp.1 x hx

theorem argsort_bounded (sims : List ℚ) (n : ℕ) :
    ∀ x ∈ (List.range n).foldl (fun acc i => insertAsc sims i acc) [], x < n := by
  induction n with
  | zero => simp
  | succ m ih =>
    rw [List.range_succ, List.foldl_append]
    intro x hx
    simp only [List.foldl_cons, List.foldl_nil] at hx
    rcases (mem_insertAsc sims m _ x).mp hx with h | h
    · omega
    · exact Nat.lt_succ_of_lt (ih x h)

theorem argsort_pairwise (sims : List ℚ) :
    (argsort sims).Pairwise (ascLex sims) := by
  unfold argsort
  generalize sims.length = n
  induction n with
  | zero => simp
  | succ m ih =>
    rw [List.range_succ, List.foldl_append]
    simp only [List.foldl_cons, List.foldl_nil]
    exact pairwise_insertAsc sims m _ ih (argsort_bounded sims m)

theorem sliceLastK_sublist (k : ℕ) (l : List ℕ) : (sliceLastK k l).Sublist l := by
  unfold sliceLastK
  by_cases hk : k = 0
  · rw [if_pos hk]
  · rw [if_neg hk]
    exact List.drop_sublist _ _

/-- C3 (counterexample): on two documents with identical text (hence equal
TF-IDF vectors and exactly equal cosine similarity `1/2`), `retrieve`
returns index 1 before index 0 — the DESCENDING-index order produced by
reversing the ascending stable argsort — so the claimed ascending-index
tie-break fails. -/
theorem c3_tiebreak_counterexample :
    (retrieve
        [⟨"Medication assisted treatment helps patients", "u1"⟩,
         ⟨"Medication assisted treatment helps patients", "u2"⟩]
        [1, 1] 2).map RetrievalResult.index = [1, 0] ∧
      ¬ specOrdered (retrieve
        [⟨"Medication assisted treatment helps patients", "u1"⟩,
         ⟨"Medication assisted treatment helps patients", "u2"⟩]
        [1, 1] 2) := by
  constructor
  · decide
  · decide

/-- C3 (amended): `retrieve` orders its results by descending similarity,
with exact ties broken by DESCENDING (not ascending) original document
index: `np.argsort` is ascending and stable, and the `[::-1]` reversal
flips tied indices. -/
theorem c3_retrieve_ordered (documents : List DocRow) (sims : List ℚ)
    (k : ℕ) : codeOrdered (retrieve documents sims k) := by
  unfold retrieve codeOrdered
  simp only
  rw [List.pairwise_map]
  apply List.Pairwise.filter
  rw [List.pairwise_reverse]
  apply List.Pairwise.sublist (sliceLastK_sublist k (argsort sims))
  apply (argsort_pairwise sims).imp
  intro i j hij
  rcases hij with h | h
  · exact Or.inl h
  · exact Or.inr ⟨h.1.symm, h.2⟩

/-- C4: `retrieve` returns at most `k` results for positive `k`, never a
zero-similarity result, and an all-zero similarity row (a query with no
vocabulary overlap projects to the zero vector) yields the empty list
rather than an error. -/
theorem c4_retrieve_topk (documents : List DocRow) (sims : List ℚ) (k : ℕ) :
    (0 < k → (retrieve documents sims k).length ≤ k) ∧
      (∀ r ∈ retrieve documents sims k, r.similarity ≠ 0) ∧
      ((∀ q ∈ sims, q = 0) → retrieve documents sims k = []) := by
  refine ⟨?_, ?_, ?_⟩
  · intro hk
    unfold retrieve
    simp only
    rw [List.length_map]
    calc (((sliceLastK k (argsort sims)).reverse).filter
          (fun idx => decide (0 < valAt sims idx))).length
        ≤ ((sliceLastK k (argsort sims)).reverse).length :=
          List.length_filter_le _ _
      _ = (sliceLastK k (argsort sims)).length := List.length_reverse _
      _ ≤ k := by
          unfold sliceLastK
          rw [if_neg (Nat.pos_iff_ne_zero.mp hk), List.length_drop]
          omega
  · intro r hr
    unfold retrieve at hr
    simp only at hr
    rcases List.mem_map.mp hr with ⟨i, hi, rfl⟩
    have hpos : 0 < valAt sims i := by
      have := List.of_mem_filter hi
      simpa using this
    exact ne_of_gt hpos
  · intro hz
    have h0 : ∀ i, valAt sims i = 0 := by
      intro i
      unfold valAt
      rcases Nat.lt_or_ge i sims.length with h | h
      · rw [List.getD_eq_getElem sims 0 h]
        exact hz _ (List.getElem_mem h)
      · exact List.getD_eq_default sims 0 h
    unfold retrieve
    simp only
    have hfil : ((sliceLastK k (argsort sims)).reverse).filter
        (fun idx => decide (0 < valAt sims idx)) = [] := by
      apply List.filter_eq_nil_iff.mpr
      intro a _
      simp [h0 a]
    rw [hfil]
    rfl

/-- C4 witness: concrete top-k bound and concrete zero-overlap query. -/
theorem c4_retrieve_topk_witness :
    (0 < 2 ∧
      (retrieve [⟨"MAT standards are important", "u1"⟩,
        ⟨"Recovery is the main goal", "u2"⟩] [2, 1] 2).length ≤ 2) ∧
      ((∀ q ∈ ([0, 0] : List ℚ), q = 0) ∧
        retrieve [⟨"MAT standards are important", "u1"⟩,
          ⟨"Recovery is the main goal", "u2"⟩] [0, 0] 2 = []) :=
  ⟨⟨by decide, (c4_retrieve_topk _ [2, 1] 2).1 (by decide)⟩,
    ⟨by decide, (c4_retrieve_topk _ [0, 0] 2).2.2 (by decide)⟩⟩

/-! ## Keyword retrieval (`DocumentRetriever.retrieve_by_keywords`,
`src/retriever.py` lines 79-98)

```python
mask = self.documents['text'].str.contains('|'.join(keywords), case=False, na=False)
matching_docs = self.documents[mask].head(k)
```

`str.contains` with its default `regex=True` treats `'|'.join(keywords)`
as a regular expression.  The embedding models the alternation patterns
this join produces for plain-text keywords (no regex metacharacters):
the pattern matches iff some `'|'`-separated alternative occurs
case-insensitively as a substring — in particular the empty pattern from
an empty keyword list has one empty alternative and matches every text. -/

/-- A keyword-retrieval result dict
(`{'text', 'source_url', 'similarity': 1.0, 'keywords_found'}`). -/
structure KeywordResult where
  text : String
  source_url : String
  similarity : ℚ
  keywords_found : List String
deriving DecidableEq

/-- Python's case-insensitive substring test (`pat.lower() in text.lower()`). -/
def containsCI (text pat : List Char) : Bool :=
  decide ((pat.map Char.toLower) <:+: (text.map Char.toLower))

/-- Case-insensitive regex search of `'|'.join(keywords)` against `text`,
for alternation-of-literals patterns. -/
def keywordMatch (keywords : List String) (text : String) : Bool :=
  let pattern := List.intercalate ['|'] (keywords.map String.data)
  (pySplit '|' pattern).any (fun alt => containsCI text.data alt)

/-- `DocumentRetriever.retrieve_by_keywords`: filter by the joined pattern,
keep the first `k` rows (`head(k)`) in original order, similarity 1.0. -/
def retrieve_by_keywords (documents : List DocRow) (keywords : List String)
    (k : ℕ) : List KeywordResult :=
  ((documents.filter (fun d => keywordMatch keywords d.text)).take k).map
    (fun d => { text := d.text, source_url := d.source_url,
                similarity := 1, keywords_found := keywords })

/-- The match relation the spec claims: a case-insensitive substring
OR-match over the keywords themselves. -/
def spec_keyword_match (keywords : List String) (text : String) : Bool :=
  keywords.any (fun kw => containsCI text.data kw.data)

/-- Keyword retrieval as the spec describes it. -/
def spec_retrieve_by_keywords (documents : List DocRow)
    (keywords : List String) (k : ℕ) : List KeywordResult :=
  ((documents.filter (fun d => spec_keyword_match keywords d.text)).take k).map
    (fun d => { text := d.text, source_url := d.source_url,
                similarity := 1, keywords_found := keywords })

/-- Splitting after a clean fragment and a separator peels off the
fragment. -/
theorem pySplit_append_sep (sep : Char) (x t : List Char) (hx : sep ∉ x) :
    pySplit sep (x ++ sep :: t) = x :: pySplit sep t := by
  induction x with
  | nil => simp [pySplit_cons_sep]
  | cons c x' ih =>
    have hc : c ≠ sep := fun h => hx (h ▸ List.mem_cons_self c x')
    have hx' : sep ∉ x' := fun h => hx (List.mem_cons_of_mem _ h)
    rw [List.cons_append, pySplit_cons_ne sep c _ hc, ih hx']
    simp

/-- Joining literal (separator-free) fragments and re-splitting recovers
the fragments. -/
theorem pySplit_intercalate (sep : Char) (ls : List (List Char)) (hne : ls ≠ [])
    (hfree : ∀ l ∈ ls, sep ∉ l) :
    pySplit sep (List.intercalate [sep] ls) = ls := by
  induction ls with
  | nil => exact absurd rfl hne
  | cons x rest ih =>
    cases rest with
    | nil =>
      have h1 : List.intercalate [sep] [x] = x := by
        simp [List.intercalate]
      rw [h1, pySplit_of_not_mem sep x (hfree x (List.mem_cons_self x []))]
    | cons y ys =>
      have h1 : List.intercalate [sep] (x :: y :: ys) =
          x ++ sep :: List.intercalate [sep] (y :: ys) := by
        simp [List.intercalate, List.intersperse_cons_cons]
      rw [h1,
        pySplit_append_sep sep x _ (hfree x (List.mem_cons_self x _)),
        ih (by simp) (fun l hl => hfree l (List.mem_cons_of_mem _ hl))]

/-- C9 (counterexample): with an EMPTY keyword sequence the joined pattern
is the empty regex, which matches every document, so `retrieve_by_keywords`
returns the document; a substring OR-match over zero keywords matches
nothing.  The claim, quantified over every keyword sequence, is false. -/
theorem c9_keywords_counterexample :
    retrieve_by_keywords
        [⟨"MAT standards are important for treatment", "u1"⟩] [] 5 =
      [⟨"MAT standards are important for treatment", "u1", 1, []⟩] ∧
    spec_retrieve_by_keywords
        [⟨"MAT standards are important for treatment", "u1"⟩] [] 5 = [] := by
  constructor
  · decide
  · decide

/-- C9 (amended): for every NON-EMPTY sequence of plain keywords (free of
regex metacharacters, in particular of `'|'`), `retrieve_by_keywords` is
exactly the spec's operation — case-insensitive substring OR-match, in
original document order, truncated to `k` — and every result carries
similarity exactly 1.0. -/
theorem c9_retrieve_by_keywords_spec (documents : List DocRow)
    (keywords : List String) (k : ℕ) (hne : keywords ≠ [])
    (hfree : ∀ kw ∈ keywords, ('|' : Char) ∉ kw.data) :
    retrieve_by_keywords documents keywords k =
        spec_retrieve_by_keywords documents keywords k ∧
      ∀ r ∈ retrieve_by_keywords documents keywords k, r.similarity = 1 := by
  constructor
  · unfold retrieve_by_keywords spec_retrieve_by_keywords
    have hmatch : ∀ text : String,
        keywordMatch keywords text = spec_keyword_match keywords text := by
      intro text
      unfold keywordMatch spec_keyword_match
      simp only
      rw [pySplit_intercalate '|' (keywords.map String.data)
        (by simpa using hne)
        (by
          intro l hl
          rcases List.mem_map.mp hl with ⟨kw, hkw, rfl⟩
          exact hfree kw hkw)]
      have hAny : ∀ ks : List String,
          (ks.map String.data).any (fun alt => containsCI text.data alt) =
            ks.any (fun kw => containsCI text.data kw.data) := by
        intro ks
        induction ks with
        | nil => rfl
        | cons kw rest ih => simp only [List.map_cons, List.any_cons, ih]
      exact hAny keywords
    rw [show (fun d : DocRow => keywordMatch keywords d.text) =
        (fun d : DocRow => spec_keyword_match keywords d.text) from
      funext (fun d => hmatch d.text)]
  · intro r hr
    unfold retrieve_by_keywords at hr
    rcases List.mem_map.mp hr with ⟨d, _, rfl⟩
    rfl

/-- The spec §8 example corpus. -/
def exampleDocs : List DocRow :=
  [⟨"MAT standards are important for treatment", "u1"⟩,
   ⟨"Medication assisted treatment helps patients", "u2"⟩,
   ⟨"Public health scotland provides guidance", "u3"⟩,
   ⟨"Recovery is the main goal of MAT", "u4"⟩]

/-- C9 witness: the amended equivalence at the spec's own example
(`retrieve_by_keywords(["MAT","treatment"], 5)`). -/
theorem c9_retrieve_by_keywords_witness :
    (["MAT", "treatment"] : List String) ≠ [] ∧
      retrieve_by_keywords exampleDocs ["MAT", "treatment"] 5 =
        spec_retrieve_by_keywords exampleDocs ["MAT", "treatment"] 5 :=
  ⟨by decide,
    (c9_retrieve_by_keywords_spec exampleDocs ["MAT", "treatment"] 5
      (by decide) (by decide)).1⟩

/-! ## Context composer (`RAGSystem._prepare_context`,
`src/rag_system.py` lines 156-167)

```python
context_parts = []
if kg_context:
    context_parts.append(f"Knowledge Graph Context: {kg_context}")
if relevant_docs:
    doc_texts = [doc['text'][:200] + "..." for doc in relevant_docs[:3]]
    context_parts.append("Relevant Information: " + " ".join(doc_texts))
return "\\n".join(context_parts)
```

Note the marker `"..."` is appended unconditionally, and the join
separator in the source file is the two-character sequence `\\n` (the
source writes the escaped form), which the embedding reproduces. -/

/-- Python string slice `s[:n]`. -/
def pyTakeChars (n : ℕ) (s : String) : String := ⟨s.data.take n⟩

/-- `sep.join(parts)` on strings. -/
def pyJoinStr (sep : String) : List String → String
  | [] => ""
  | [x] => x
  | x :: y :: rest => x ++ sep ++ pyJoinStr sep (y :: rest)

/-- The segment contributed by one retrieved document:
`doc['text'][:200] + "..."`. -/
def docSegment (d : RetrievalResult) : String := pyTakeChars 200 d.text ++ "..."

/-- `RAGSystem._prepare_context`. -/
def prepare_context (relevant_docs : List RetrievalResult)
    (kg_context : String) : String :=
  let parts₁ : List String :=
    if kg_context ≠ "" then ["Knowledge Graph Context: " ++ kg_context] else []
  let parts₂ : List String :=
    if relevant_docs ≠ [] then
      parts₁ ++ ["Relevant Information: " ++
        pyJoinStr " " ((relevant_docs.take 3).map docSegment)]
    else parts₁
  pyJoinStr "\\n" parts₂

/-- The composer as the claim states it: the truncation marker is appended
ONLY if the text was longer than 200 characters. -/
def spec_prepare_context (relevant_docs : List RetrievalResult)
    (kg_context : String) : String :=
  let parts₁ : List String :=
    if kg_context ≠ "" then ["Knowledge Graph Context: " ++ kg_context] else []
  let parts₂ : List String :=
    if relevant_docs ≠ [] then
      parts₁ ++ ["Relevant Information: " ++
        pyJoinStr " " ((relevant_docs.take 3).map (fun d =>
          if 200 < d.text.length then pyTakeChars 200 d.text ++ "..."
          else d.text))]
    else parts₁
  pyJoinStr "\\n" parts₂

/-- Members of a joined list occur in the join. -/
theorem mem_infix_pyJoinStr (sep : String) (l : List String) (x : String)
    (hx : x ∈ l) : x.data <:+: (pyJoinStr sep l).data := by
  induction l with
  | nil => simp at hx
  | cons a rest ih =>
    cases rest with
    | nil =>
      rcases List.mem_cons.mp hx with h | h
      · exact h ▸ List.infix_refl _
      · simp at h
    | cons b bs =>
      rcases List.mem_cons.mp hx with h | h
      · subst h
        show x.data <:+: (x ++ sep ++ pyJoinStr sep (b :: bs)).data
        refine ⟨[], (sep ++ pyJoinStr sep (b :: bs)).data, ?_⟩
        simp [String.data_append]
      · have hInf := ih h
        show x.data <:+: (a ++ sep ++ pyJoinStr sep (b :: bs)).data
        rcases hInf with ⟨s, t, hst⟩
        refine ⟨(a ++ sep).data ++ s, t, ?_⟩
        simp only [String.data_append, List.append_assoc]
        rw [← hst]
        simp [List.append_assoc]

/-- C6 (counterexample): for a 5-character document text (not cut by the
200-character budget) the composed context still carries the `"..."`
marker, refuting "appended only if the text was cut". -/
theorem c6_marker_counterexample :
    prepare_context [⟨"short", "u", 1, 0⟩] "" =
        "Relevant Information: short..." ∧
      spec_prepare_context [⟨"short", "u", 1, 0⟩] "" =
        "Relevant Information: short" ∧
      prepare_context [⟨"short", "u", 1, 0⟩] "" ≠
        spec_prepare_context [⟨"short", "u", 1, 0⟩] "" := by
  refine ⟨by decide, by decide, by decide⟩

/-- C6 (amended): non-empty graph facts open the context under the fixed
label; only the top 3 retrieved documents contribute; each contributing
document appears as its text hard-truncated to 200 characters with the
`"..."` marker appended UNCONDITIONALLY (cut or not). -/
theorem c6_prepare_context_assembly (relevant_docs : List RetrievalResult)
    (kg_context : String) :
    (kg_context ≠ "" → ∃ rest, prepare_context relevant_docs kg_context =
        "Knowledge Graph Context: " ++ kg_context ++ rest) ∧
      prepare_context relevant_docs kg_context =
        prepare_context (relevant_docs.take 3) kg_context ∧
      ∀ d ∈ relevant_docs.take 3,
        (docSegment d).data <:+: (prepare_context relevant_docs kg_context).data := by
  refine ⟨?_, ?_, ?_⟩
  · intro hkg
    unfold prepare_context
    simp only [if_pos hkg]
    by_cases hd : relevant_docs ≠ []
    · rw [if_pos hd]
      exact ⟨"\\n" ++ ("Relevant Information: " ++
          pyJoinStr " " ((relevant_docs.take 3).map docSegment)),
        by simp [pyJoinStr, String.append_assoc]⟩
    · rw [if_neg hd]
      exact ⟨"", by simp [pyJoinStr, String.append_assoc, String.append_empty]⟩
  · unfold prepare_context
    by_cases hd : relevant_docs = []
    · subst hd; rfl
    · have h3 : relevant_docs.take 3 ≠ [] := by
        simp [List.take_eq_nil_iff, hd]
      simp only [if_pos (show relevant_docs ≠ [] from hd), if_pos h3,
        List.take_take, Nat.min_self]
  · intro d hd
    have hne : relevant_docs ≠ [] := by
      intro h; rw [h] at hd; simp at hd
    unfold prepare_context
    simp only [if_pos (show relevant_docs ≠ [] from hne)]
    have h1 : (docSegment d).data <:+:
        (pyJoinStr " " ((relevant_docs.take 3).map docSegment)).data :=
      mem_infix_pyJoinStr _ _ _ (List.mem_map_of_mem docSegment hd)
    have h2 : (docSegment d).data <:+:
        ("Relevant Information: " ++
          pyJoinStr " " ((relevant_docs.take 3).map docSegment)).data := by
      rcases h1 with ⟨s, t, hst⟩
      exact ⟨"Relevant Information: ".data ++ s, t, by
        simp only [String.data_append, List.append_assoc]
        rw [← hst]
        simp [List.append_assoc]⟩
    have h3 : ("Relevant Information: " ++
        pyJoinStr " " ((relevant_docs.take 3).map docSegment)) ∈
        ((if kg_context ≠ "" then
            ["Knowledge Graph Context: " ++ kg_context] else []) ++
          ["Relevant Information: " ++
            pyJoinStr " " ((relevant_docs.take 3).map docSegment)]) := by
      simp
    exact h2.trans (mem_infix_pyJoinStr "\\n" _ _ h3)

/-- C6 witness: the amended assembly at a concrete query state. -/
theorem c6_prepare_context_witness :
    ("related facts" : String) ≠ "" ∧
      ∃ rest, prepare_context [⟨"short", "u", 1, 0⟩] "related facts" =
        "Knowledge Graph Context: " ++ "related facts" ++ rest :=
  ⟨by decide,
    (c6_prepare_context_assembly [⟨"short", "u", 1, 0⟩] "related facts").1
      (by decide)⟩

/-! ## RAG answer generation (`RAGSystem`, `src/rag_system.py`)

The language model and the graph store are external collaborators
(spec §1): the embedded system state carries them as functions.  The
generator returns the `generated_text` of each returned sequence and may
fail (`Except.error`) or return malformed output (an empty sequence
list, making `outputs[0]` raise `IndexError` inside the `try`); the
fitted retriever is the total function `retrieveFn`; `kgQuery` may fail
like `neo4j` calls do.  Wall-clock logging is not modelled. -/

/-- The state of a `RAGSystem` object after `setup()`. -/
structure RAGState where
  is_loaded : Bool
  retrieveFn : String → ℕ → List RetrievalResult
  kgQuery : String → Except String (List String)
  generator : String → Except String (List String)

/-- The fixed apologetic message of `_generate_with_context`'s handler. -/
def apologyMsg : String :=
  "I apologize, but I'm having trouble generating a response right now. Please try again."

/-- `str.lower()`. -/
def lowerStr (s : String) : String := ⟨s.data.map Char.toLower⟩

/-- Python `sub in s`. -/
def strContains (s sub : String) : Bool := decide (sub.data <:+: s.data)

/-- `RAGSystem._get_kg_context` body (inside its `try`). -/
def get_kg_context_body (kgQuery : String → Except String (List String))
    (query : String) : Except String String := do
  if strContains (lowerStr query) "standard" then
    let rows ← kgQuery "MATCH (n:MATStandard) RETURN n.name LIMIT 5"
    if rows ≠ [] then
      return "Related MAT Standards: " ++ pyJoinStr ", " rows
  if strContains (lowerStr query) "organization" then
    let rows ← kgQuery "MATCH (n:Organization) RETURN n.name LIMIT 3"
    if rows ≠ [] then
      return "Related Organizations: " ++ pyJoinStr ", " rows
  return ""

/-- `RAGSystem._get_kg_context`: any failure degrades to `""` (lines
131-154). -/
def get_kg_context (kgQuery : String → Except String (List String))
    (query : String) : String :=
  match get_kg_context_body kgQuery query with
  | .ok s => s
  | .error _ => ""

/-- The generation prompt (lines 173-177). -/
def mkPrompt (context query : String) : String :=
  "Context: " ++ context ++ "\n\nQuestion: " ++ query ++ "\n\nAnswer: "

/-- Python `outputs[i]`: raises `IndexError` out of range. -/
def pyListGet (outputs : List String) (i : ℕ) : Except String String :=
  match outputs.get? i with
  | some v => Except.ok v
  | none => Except.error "IndexError"

/-- `str.split(sep)` for a multi-character separator: leftmost,
non-overlapping. -/
def splitOnSub (sep : List Char) : List Char → List (List Char)
  | [] => [[]]
  | c :: rest =>
    if h : sep.isPrefixOf (c :: rest) ∧ sep ≠ [] then
      [] :: splitOnSub sep ((c :: rest).drop sep.length)
    else
      match splitOnSub sep rest with
      | [] => [[c]]
      | f :: fs => (c :: f) :: fs
termination_by l => l.length
decreasing_by
  · simp only [List.length_drop, List.length_cons]
    have : 0 < sep.length := List.length_pos.mpr h.2
    omega
  · simp [Nat.lt_succ_self]

/-- `RAGSystem._generate_with_context` body (inside its `try`),
lines 171-194. -/
def generate_with_context_body
    (generator : String → Except String (List String))
    (query context : String) : Except String String := do
  let prompt := mkPrompt context query
  let outputs ← generator prompt
  let generated_text ← pyListGet outputs 0
  let response : String :=
    ⟨pyStrip (((splitOnSub "Answer: ".data generated_text.data).getLastD []))⟩
  return clean_response response

/-- `RAGSystem._generate_with_context`: every failure inside the `try`
(generator exception, malformed output) is caught and replaced by the
fixed apologetic message (lines 196-198). -/
def generate_with_context (generator : String → Except String (List String))
    (query context : String) : String :=
  match generate_with_context_body generator query context with
  | .ok r => r
  | .error _ => apologyMsg

/-- The result dict of `generate_response`.  (The early not-loaded return
omits the last two keys; they are modelled as `false` there.) -/
structure QueryResult where
  response : String
  sources : List String
  context_used : Bool
  kg_context : Bool
deriving DecidableEq

/-- `RAGSystem.generate_response` (lines 99-129). -/
def generate_response (sys : RAGState) (query : String) (use_kg : Bool)
    (k : ℕ) : QueryResult :=
  if sys.is_loaded = false then
    { response := "Model not loaded. Please try again later.", sources := [],
      context_used := false, kg_context := false }
  else
    let relevant_docs := sys.retrieveFn query k
    let kg_context :=
      if use_kg then get_kg_context sys.kgQuery query else ""
    let context := prepare_context relevant_docs kg_context
    let response := generate_with_context sys.generator query context
    { response := response
      sources := (relevant_docs.filter (fun d => d.source_url ≠ "")).map
        (fun d => d.source_url)
      context_used := decide (0 < relevant_docs.length ∨ kg_context ≠ "")
      kg_context := decide (kg_context ≠ "") }

/-- A loaded system whose retriever finds one sourced document and whose
generator always raises. -/
def failingGenSys : RAGState :=
  { is_loaded := true
    retrieveFn := fun _ _ =>
      [⟨"MAT standards are important for treatment", "http://example.org/mat", 1, 0⟩]
    kgQuery := fun _ => Except.ok []
    generator := fun _ => Except.error "CUDA out of memory" }

/-- C1 (counterexample): when the generator raises on a loaded system, the
answer is the fixed apologetic message, but the source list is NOT empty —
it still carries the URLs of the retrieved documents (line 123 builds
`sources` from `relevant_docs` regardless of generation failure). -/
theorem c1_sources_counterexample :
    (generate_response failingGenSys "What are the MAT standards?" true 3).response
        = apologyMsg ∧
      (generate_response failingGenSys "What are the MAT standards?" true 3).sources
        = ["http://example.org/mat"] ∧
      (generate_response failingGenSys "What are the MAT standards?" true 3).sources
        ≠ [] := by
  refine ⟨by decide, by decide, by decide⟩

/-- C1 (amended): on a loaded system, `generate_response` is a total
function (every internal failure is caught, nothing propagates); whenever
the external generator raises or returns malformed (empty) output it
returns the fixed apologetic message, while the source list remains the
retrieved documents' non-empty URLs (empty only when retrieval produced
no sourced document). -/
theorem c1_generation_failure_recovery (sys : RAGState) (query : String)
    (use_kg : Bool) (k : ℕ) (e : String)
    (hloaded : sys.is_loaded = true)
    (hgen : ∀ p, sys.generator p = Except.error e ∨
      sys.generator p = Except.ok []) :
    (generate_response sys query use_kg k).response = apologyMsg ∧
      (generate_response sys query use_kg k).sources =
        ((sys.retrieveFn query k).filter (fun d => d.source_url ≠ "")).map
          (fun d => d.source_url) := by
  have hbody : ∀ q c, generate_with_context sys.generator q c = apologyMsg := by
    intro q c
    unfold generate_with_context generate_with_context_body
    rcases hgen (mkPrompt c q) with h | h <;>
      simp [h, pyListGet, Bind.bind, Except.bind, Functor.map, Except.map]
  unfold generate_response
  rw [hloaded]
  simp only [Bool.true_eq_false, if_false, hbody]
  exact ⟨trivial, trivial⟩

/-- C1 witness: the amended recovery at the concrete failing system. -/
theorem c1_generation_failure_witness :
    failingGenSys.is_loaded = true ∧
      (generate_response failingGenSys "What are the MAT standards?" true 3).response
        = apologyMsg :=
  ⟨rfl,
    (c1_generation_failure_recovery failingGenSys "What are the MAT standards?"
      true 3 "CUDA out of memory" rfl (fun _ => Or.inl rfl)).1⟩

/-! ## Text normalizer (`MATScraper.clean_data` / `MATScraper._clean_text`,
`src/data_scrapper.py` lines 69-101)

A pandas frame is a list of (index, row) pairs; filtering keeps labels,
`reset_index(drop=True)` renumbers from 0.

`_clean_text` note: the source file spells its regexes with doubled
backslashes (`r'\\s+'`, `r'[^\\w\\s.,;:!?()-]'`), which as written match a
literal backslash; the repository's own `test_clean_text` (expecting
`"This is a test!"`) passes only under the evidently intended `\s+` /
`[^\w\s.,;:!?()-]`, so the embedding uses the intended semantics
(ASCII word characters): collapse whitespace runs to one space, keep only
word characters, whitespace and `.,;:!?()-`, then strip. -/

/-- A scraped record (columns `text`, `source_url`, `length`; the `length`
column is set at scrape time and not recomputed by cleaning). -/
structure ScrapedRow where
  text : String
  source_url : String
  length : ℕ
deriving DecidableEq

/-- A pandas frame of scraped records: (index label, row) pairs. -/
abbrev Frame : Type := List (ℕ × ScrapedRow)

/-- Regex `\w` (ASCII). -/
def isWordChar (c : Char) : Bool := c.isAlphanum || c = '_'

/-- The character class kept by `_clean_text`'s second substitution. -/
def allowedChar (c : Char) : Bool :=
  isWordChar c || c.isWhitespace ||
    c ∈ ['.', ',', ';', ':', '!', '?', '(', ')', '-']

/-- Helper of `collapseWs`: `inRun` records whether the previous character
belonged to the current whitespace run (already emitted as one space). -/
def collapseWsAux (inRun : Bool) : List Char → List Char
  | [] => []
  | c :: rest =>
    if c.isWhitespace then
      if inRun then collapseWsAux true rest
      else ' ' :: collapseWsAux true rest
    else c :: collapseWsAux false rest

/-- `re.sub(r"\s+", " ", text)`: collapse each whitespace run to one
space. -/
def collapseWs (l : List Char) : List Char := collapseWsAux false l

/-- `MATScraper._clean_text`. -/
def clean_text (s : String) : String :=
  ⟨pyStrip (List.filter allowedChar (collapseWs s.data))⟩

/-- `df.drop_duplicates(subset=[...])`: keep the first row per key. -/
def firstOccurAux {α : Type} (key : α → String) (seen : List String) :
    List α → List α
  | [] => []
  | x :: rest =>
    if key x ∈ seen then firstOccurAux key seen rest
    else x :: firstOccurAux key (key x :: seen) rest

/-- `df.drop_duplicates(subset=['text'])`. -/
def drop_duplicates {α : Type} (key : α → String) (l : List α) : List α :=
  firstOccurAux key [] l

/-- `df.reset_index(drop=True)`. -/
def reset_index (df : Frame) : Frame := (df.map Prod.snd).enum

/-- `MATScraper.clean_data`: drop raw-empty texts, de-duplicate raw texts,
clean the text column, drop cleaned texts shorter than 20, renumber. -/
def clean_data (df : Frame) : Frame :=
  let df₁ := df.filter (fun p => 0 < p.2.text.length)
  let df₂ := drop_duplicates (fun p => p.2.text) df₁
  let df₃ := df₂.map (fun p => (p.1, { p.2 with text := clean_text p.2.text }))
  let df₄ := df₃.filter (fun p => 20 ≤ p.2.text.length)
  reset_index df₄

/-- The Normalizer in the claim's order: the empty-text discard inspects
the CLEANED text first, then duplicates are discarded, then the
under-20-character cleaned texts. -/
def spec_normalize (df : Frame) : Frame :=
  let df₁ := df.filter (fun p => 0 < (clean_text p.2.text).length)
  let df₂ := drop_duplicates (fun p => p.2.text) df₁
  let df₃ := df₂.map (fun p => (p.1, { p.2 with text := clean_text p.2.text }))
  let df₄ := df₃.filter (fun p => 20 ≤ p.2.text.length)
  reset_index df₄

/-- Filtering on a key property commutes with key-based de-duplication,
as long as the two seen-lists agree on keys satisfying the property. -/
theorem filter_firstOccurAux {α : Type} (key : α → String) (P : String → Bool)
    (l : List α) (s₁ s₂ : List String)
    (hs : ∀ t, P t = true → (t ∈ s₁ ↔ t ∈ s₂)) :
    (firstOccurAux key s₂ l).filter (fun a => P (key a)) =
      firstOccurAux key s₁ (l.filter (fun a => P (key a))) := by
  induction l generalizing s₁ s₂ with
  | nil => simp [firstOccurAux]
  | cons x rest ih =>
    by_cases hP : P (key x) = true
    · by_cases hmem : key x ∈ s₂
      · have hmem₁ : key x ∈ s₁ := (hs _ hP).mpr hmem
        simp only [firstOccurAux, if_pos hmem, List.filter_cons, hP,
          if_pos hmem₁, if_true]
        exact ih s₁ s₂ hs
      · have hmem₁ : key x ∉ s₁ := fun h => hmem ((hs _ hP).mp h)
        simp only [firstOccurAux, if_neg hmem, List.filter_cons, hP,
          if_neg hmem₁, if_true]
        rw [ih (key x :: s₁) (key x :: s₂) (fun t ht => by
          simp only [List.mem_cons]
          rw [hs t ht])]
    · have hPf : P (key x) = false := Bool.eq_false_iff.mpr hP
      by_cases hmem : key x ∈ s₂
      · simp only [firstOccurAux, if_pos hmem, List.filter_cons, hPf,
          Bool.false_eq_true, if_false]
        exact ih s₁ s₂ hs
      · simp only [firstOccurAux, if_neg hmem, List.filter_cons, hPf,
          Bool.false_eq_true, if_false]
        rw [ih s₁ (key x :: s₂) (fun t ht => by
          have hne : t ≠ key x := fun h => by
            rw [h] at ht; rw [ht] at hPf; simp at hPf
          simp [List.mem_cons, hne, hs t ht])]

/-- Rows removed by a pre-map filter would be removed by the post-map
filter anyway. -/
theorem filter_map_filter {α β : Type} (f : α → β) (P : α → Bool)
    (Q : β → Bool) (l : List α) (h : ∀ a, P a = false → Q (f a) = false) :
    ((l.filter P).map f).filter Q = (l.map f).filter Q := by
  induction l with
  | nil => rfl
  | cons a rest ih =>
    by_cases hP : P a = true
    · simp [List.filter_cons, List.map_cons, hP, ih]
    · have hPf : P a = false := Bool.eq_false_iff.mpr hP
      simp [List.filter_cons, List.map_cons, hPf, h a hPf, ih]

/-- Both discard orders collapse to the same pipeline: any pre-dedup
filter whose rejects would fail the 20-character check anyway can be
dropped. -/
theorem pipeline_eq (df : List (ℕ × ScrapedRow)) (P : String → Bool)
    (hP : ∀ t, P t = false → (clean_text t).length < 20) :
    ((firstOccurAux (fun p => p.2.text) []
        (df.filter (fun p => P p.2.text))).map
        (fun p => (p.1, { p.2 with text := clean_text p.2.text }))).filter
        (fun p => 20 ≤ p.2.text.length) =
      ((firstOccurAux (fun p => p.2.text) [] df).map
        (fun p => (p.1, { p.2 with text := clean_text p.2.text }))).filter
        (fun p => 20 ≤ p.2.text.length) := by
  rw [← filter_firstOccurAux (fun p => p.2.text) P df [] []
    (fun t _ => Iff.rfl)]
  exact filter_map_filter _ _ _ _ (fun a ha => by
    have := hP a.2.text ha
    simpa using this)

/-- The spec's §8 Normalizer example input. -/
def exampleFrame : List (ℕ × ScrapedRow) :=
  [(0, ⟨"", "url1", 0⟩), (1, ⟨"Valid text", "url2", 10⟩),
   (2, ⟨"Valid text", "url3", 10⟩), (3, ⟨"short", "url4", 5⟩)]

/-- C8 (counterexample): on the spec's own example input the Normalizer
returns NO documents — `"Valid text"` is only 10 characters and is
discarded by the under-20-character filter — not "exactly one Document
with text `Valid text`". -/
theorem c8_normalizer_counterexample :
    clean_data exampleFrame = ([] : List (ℕ × ScrapedRow)) ∧
      (clean_data exampleFrame).length ≠ 1 := by
  refine ⟨by decide, by decide⟩

/-- C8 (amended): the discard pipeline is as described (the raw-empty and
cleaned-empty readings coincide: a document whose text cleans to fewer
than 20 characters is dropped either way, and duplicates are detected on
the raw text), survivors are re-indexed contiguously from 0 — but the
example `["", "Valid text", "Valid text", "short"]` yields NO documents,
`"Valid text"` (10 characters) falling below the 20-character minimum. -/
theorem c8_normalizer_pipeline :
    (∀ df : List (ℕ × ScrapedRow), clean_data df = spec_normalize df) ∧
      (∀ df : List (ℕ × ScrapedRow),
        (clean_data df).map Prod.fst = List.range (clean_data df).length) ∧
      clean_data exampleFrame = [] := by
  refine ⟨?_, ?_, by decide⟩
  · intro df
    unfold clean_data spec_normalize drop_duplicates
    simp only
    refine congrArg reset_index ?_
    have hraw : ∀ t : String,
        (decide (0 < t.length)) = false → (clean_text t).length < 20 := by
      intro t ht
      have h0 : t.length = 0 := by
        by_contra hne
        simp [Nat.pos_of_ne_zero hne] at ht
      have : t = "" := by
        cases t with
        | mk data =>
          have : data.length = 0 := h0
          rw [List.length_eq_zero] at this
          rw [this]
      rw [this]
      decide
    have hclean : ∀ t : String,
        (decide (0 < (clean_text t).length)) = false →
          (clean_text t).length < 20 := by
      intro t ht
      have h0 : ¬ 0 < (clean_text t).length := by
        intro hpos; simp [hpos] at ht
      omega
    exact (pipeline_eq df (fun t => decide (0 < t.length)) hraw).trans
      (pipeline_eq df (fun t => decide (0 < (clean_text t).length)) hclean).symm
  · intro df
    unfold clean_data reset_index
    simp only
    rw [List.enum_map_fst, List.enum_length]

/-! ## Evaluation engine (`ChatbotEvaluator`, `src/evaluation.py`)

The ROUGE and BLEU scorers are external libraries: `evaluate_response`'s
metric computation is the parameter `score`.  Wall-clock timing
(`time.time()` deltas) is not modelled; the timing fields are kept with
value 0 so that the division `total_time / len(test_cases)` (line 147)
remains in the embedding.  Metric values are rationals (Python floats are
outside a shallow embedding; every claim about them is arithmetic
identity, stated exactly over `ℚ`). -/

/-- The five scored metrics of `_calculate_aggregate_metrics` (line 158). -/
inductive Metric
  | rouge1_f | rouge2_f | rougeL_f | bleu | keyword_overlap
deriving DecidableEq

def metricName : Metric → String
  | .rouge1_f => "rouge1_f"
  | .rouge2_f => "rouge2_f"
  | .rougeL_f => "rougeL_f"
  | .bleu => "bleu"
  | .keyword_overlap => "keyword_overlap"

/-- `metrics = ['rouge1_f', 'rouge2_f', 'rougeL_f', 'bleu',
'keyword_overlap']`. -/
def metricsList : List Metric :=
  [.rouge1_f, .rouge2_f, .rougeL_f, .bleu, .keyword_overlap]

/-- The scored part of one `evaluate_response` result. -/
structure MetricVals where
  rouge1_f : ℚ
  rouge2_f : ℚ
  rougeL_f : ℚ
  bleu : ℚ
  keyword_overlap : ℚ
deriving DecidableEq

/-- One test case (`{'question', 'expected_answer', 'category'}`). -/
structure TestCase where
  question : String
  expected_answer : String
  category : String
deriving DecidableEq

/-- One per-case result dict of `run_evaluation`'s loop (lines 129-140). -/
structure EvalRecord where
  rouge1_f : ℚ
  rouge2_f : ℚ
  rougeL_f : ℚ
  bleu : ℚ
  keyword_overlap : ℚ
  question : String
  expected : String
  generated : String
  category : String
  sources_found : ℕ
  context_used : Bool
deriving DecidableEq

def metricVal (r : EvalRecord) : Metric → ℚ
  | .rouge1_f => r.rouge1_f
  | .rouge2_f => r.rouge2_f
  | .rougeL_f => r.rougeL_f
  | .bleu => r.bleu
  | .keyword_overlap => r.keyword_overlap

/-- Python `min(values)` for a non-empty list (position-irrelevant here). -/
def listMinQ : List ℚ → ℚ
  | [] => 0
  | x :: xs => xs.foldl min x

/-- Python `max(values)` for a non-empty list. -/
def listMaxQ : List ℚ → ℚ
  | [] => 0
  | x :: xs => xs.foldl max x

/-- `set(r['category'] for r in results)`, as the deterministic
first-occurrence list. -/
def categoriesOf (results : List EvalRecord) : List String :=
  drop_duplicates (fun s => s) (results.map (fun r => r.category))

/-- `values = [r[metric] for r in results]`. -/
def metricValues (results : List EvalRecord) (m : Metric) : List ℚ :=
  results.map (fun r => metricVal r m)

/-- `sum(values) / len(values)` over all records: the arithmetic mean. -/
def globalMean (results : List EvalRecord) (m : Metric) : ℚ :=
  (metricValues results m).sum / ((metricValues results m).length : ℚ)

/-- `values` restricted to one category
(`[r[metric] for r in category_results]`). -/
def catValues (results : List EvalRecord) (c : String) (m : Metric) : List ℚ :=
  (results.filter (fun r => r.category = c)).map (fun r => metricVal r m)

/-- The per-category arithmetic mean. -/
def catMean (results : List EvalRecord) (c : String) (m : Metric) : ℚ :=
  (catValues results c m).sum / ((catValues results c m).length : ℚ)

/-- The f-string key `f'{category}_{metric}_mean'`. -/
def cKey (c : String) (m : Metric) : String :=
  c ++ ("_" ++ (metricName m ++ "_mean"))

/-- The global `{metric}_mean`/`_min`/`_max` entries, in metric order. -/
def globalEntries (results : List EvalRecord) : List (String × ℚ) :=
  metricsList.flatMap (fun m =>
    [(metricName m ++ "_mean", globalMean results m),
     (metricName m ++ "_min", listMinQ (metricValues results m)),
     (metricName m ++ "_max", listMaxQ (metricValues results m))])

/-- The `{category}_{metric}_mean` entries, categories outermost. -/
def catEntries (results : List EvalRecord) : List (String × ℚ) :=
  (categoriesOf results).flatMap (fun c =>
    metricsList.map (fun m => (cKey c m, catMean results c m)))

/-- The aggregate entries built by `_calculate_aggregate_metrics`
(lines 156-175), in insertion order: per-metric mean/min/max, then the
per-category means. -/
def aggEntries (results : List EvalRecord) : List (String × ℚ) :=
  globalEntries results ++ catEntries results

/-- `ChatbotEvaluator._calculate_aggregate_metrics`.  Python's `/`,
`min` and `max` raise exactly when `values` is empty; the global `values`
lists have `len(results)` elements and each per-category list is
non-empty (its category was discovered in `results`), so the single
guard mirrors the first raising operation — `sum(values)/len(values)`
for the first metric (line 163, `ZeroDivisionError`). -/
def calculate_aggregate_metrics (results : List EvalRecord) :
    Except String (List (String × ℚ)) :=
  if results.length = 0 then Except.error "ZeroDivisionError"
  else Except.ok (aggEntries results)

/-- One iteration of `run_evaluation`'s loop: invoke the pipeline
(`generate_response`, which may raise), score, attach metadata. -/
def evalCase (gen : String → Except String QueryResult)
    (score : String → String → MetricVals) (c : TestCase) :
    Except String EvalRecord := do
  let result ← gen c.question
  let m := score c.expected_answer result.response
  return { rouge1_f := m.rouge1_f, rouge2_f := m.rouge2_f
           rougeL_f := m.rougeL_f, bleu := m.bleu
           keyword_overlap := m.keyword_overlap
           question := c.question, expected := c.expected_answer
           generated := result.response, category := c.category
           sources_found := result.sources.length
           context_used := result.context_used }

/-- `run_evaluation`'s case loop (lines 113-142): there is NO exception
handling around the pipeline call — a raise propagates. -/
def evalLoop (gen : String → Except String QueryResult)
    (score : String → String → MetricVals) :
    List TestCase → Except String (List EvalRecord)
  | [] => Except.ok []
  | c :: rest => do
    let r ← evalCase gen score c
    let rs ← evalLoop gen score rest
    return r :: rs

/-- The report returned by `run_evaluation`. -/
structure EvalReport where
  individual_results : List EvalRecord
  aggregate_metrics : List (String × ℚ)
  test_cases_count : ℕ

/-- `ChatbotEvaluator.run_evaluation` (lines 99-154). -/
def run_evaluation (gen : String → Except String QueryResult)
    (score : String → String → MetricVals) (test_cases : List TestCase) :
    Except String EvalReport := do
  let results ← evalLoop gen score test_cases
  let agg ← calculate_aggregate_metrics results
  let avg ← (if test_cases.length = 0 then Except.error "ZeroDivisionError"
    else Except.ok ((0 : ℚ) / test_cases.length))
  return { individual_results := results
           aggregate_metrics := agg ++
             [("total_evaluation_time", 0), ("average_response_time", avg)]
           test_cases_count := test_cases.length }

/-- Whether a fallible computation returned normally. -/
def exceptOk {ε α : Type} : Except ε α → Bool
  | .ok _ => true
  | .error _ => false

/-- C10: on an empty test-case sequence `run_evaluation` raises
`ZeroDivisionError` — `sum(values)/len(values)` divides by zero records
(and `total_time/len(test_cases)` would too) — so a normally returned
report exists only for non-empty input. -/
theorem c10_empty_evaluation_raises
    (gen : String → Except String QueryResult)
    (score : String → String → MetricVals) :
    run_evaluation gen score [] = Except.error "ZeroDivisionError" ∧
      ∀ test_cases, exceptOk (run_evaluation gen score test_cases) = true →
        test_cases ≠ [] := by
  constructor
  · rfl
  · intro cases hok hcon
    subst hcon
    rw [show run_evaluation gen score [] = Except.error "ZeroDivisionError"
      from rfl] at hok
    simp [exceptOk] at hok

/-- A pipeline stub that always answers, and an all-zero scorer. -/
def okGen : String → Except String QueryResult :=
  fun _ => Except.ok ⟨"an answer about MAT standards", [], false, false⟩

def zeroScore : String → String → MetricVals := fun _ _ => ⟨0, 0, 0, 0, 0⟩

/-- C10 witness: a singleton run returns normally, and the theorem then
yields its non-emptiness. -/
theorem c10_empty_evaluation_witness :
    exceptOk (run_evaluation okGen zeroScore [⟨"q", "e", "general"⟩]) = true ∧
      ([⟨"q", "e", "general"⟩] : List TestCase) ≠ [] :=
  ⟨rfl, (c10_empty_evaluation_raises okGen zeroScore).2
    [⟨"q", "e", "general"⟩] rfl⟩

/-- A pipeline that raises, as an unhandled model/driver error would. -/
def boomGen : String → Except String QueryResult :=
  fun _ => Except.error "model crashed"

/-- C2 (counterexample): `run_evaluation` has no exception handling around
the pipeline call — when generation raises for the first of two cases the
whole run aborts with that exception and NO report (no degraded entry, no
remaining cases) is produced. -/
theorem c2_abort_counterexample :
    run_evaluation boomGen zeroScore
        [⟨"q1", "e1", "general"⟩, ⟨"q2", "e2", "purpose"⟩] =
      Except.error "model crashed" ∧
      exceptOk (run_evaluation boomGen zeroScore
        [⟨"q1", "e1", "general"⟩, ⟨"q2", "e2", "purpose"⟩]) = false := by
  exact ⟨rfl, rfl⟩

theorem evalLoop_error (gen : String → Except String QueryResult)
    (score : String → String → MetricVals) :
    ∀ (pre : List TestCase) (c : TestCase) (post : List TestCase) (e : String),
      (∀ c' ∈ pre, exceptOk (gen c'.question) = true) →
      gen c.question = Except.error e →
      evalLoop gen score (pre ++ c :: post) = Except.error e := by
  intro pre
  induction pre with
  | nil =>
    intro c post e _ hc
    simp [evalLoop, evalCase, hc, Bind.bind, Except.bind]
  | cons a rest ih =>
    intro c post e hpre hc
    cases hga : gen a.question with
    | error err =>
      have := hpre a (List.mem_cons_self a rest)
      rw [hga] at this
      simp [exceptOk] at this
    | ok v =>
      have hrest := ih c post e
        (fun c' h' => hpre c' (List.mem_cons_of_mem _ h')) hc
      simp [evalLoop, evalCase, hga, Bind.bind, Except.bind, pure,
        Except.pure, hrest]

/-- C2 (amended): if the generation pipeline raises for any case of the
run (all earlier cases succeeding), the Evaluation Engine propagates the
exception and aborts: no degraded entry is recorded, no report is
produced.  (The top-level `generate_response` is itself designed never to
raise — C1 — which is what the loop's lack of handling relies on.) -/
theorem c2_pipeline_failure_aborts (gen : String → Except String QueryResult)
    (score : String → String → MetricVals) (pre : List TestCase)
    (c : TestCase) (post : List TestCase) (e : String)
    (hpre : ∀ c' ∈ pre, exceptOk (gen c'.question) = true)
    (hc : gen c.question = Except.error e) :
    run_evaluation gen score (pre ++ c :: post) = Except.error e := by
  have hloop := evalLoop_error gen score pre c post e hpre hc
  unfold run_evaluation
  simp [hloop, Bind.bind, Except.bind]

/-- C2 witness: the amended abort behaviour at a concrete two-case run
whose second case fails. -/
theorem c2_pipeline_failure_witness :
    (∀ c' ∈ [(⟨"q1", "e1", "general"⟩ : TestCase)],
        exceptOk ((fun q => if q = "q2" then Except.error "model crashed"
          else okGen q) c'.question) = true) ∧
      run_evaluation
        (fun q => if q = "q2" then Except.error "model crashed" else okGen q)
        zeroScore
        ([⟨"q1", "e1", "general"⟩] ++ ⟨"q2", "e2", "purpose"⟩ :: []) =
        Except.error "model crashed" :=
  ⟨by decide,
    c2_pipeline_failure_aborts _ zeroScore
      [⟨"q1", "e1", "general"⟩] ⟨"q2", "e2", "purpose"⟩ [] "model crashed"
      (by decide) rfl⟩

/-! ### Key disjointness for the flat aggregate mapping

The aggregate dict mixes fixed `{metric}_{stat}` keys with synthesized
`{category}_{metric}_mean` keys for arbitrary category strings; the claim
needs that no category key can collide with a fixed key and that distinct
(category, metric) pairs give distinct keys.  All reduce to "no metric
name is an underscore-suffix of another", checked by `decide`. -/

theorem string_append_ne (c s t : String)
    (h : t.data.drop (t.data.length - s.data.length) ≠ s.data) :
    c ++ s ≠ t := by
  intro he
  apply h
  have hd : c.data ++ s.data = t.data := by
    rw [← String.data_append, he]
  rw [← hd, List.length_append, Nat.add_sub_cancel]
  exact List.drop_left c.data s.data

theorem string_append_append_ne (c₁ c₂ s t : String)
    (hst : t.data.drop (t.data.length - s.data.length) ≠ s.data)
    (hts : s.data.drop (s.data.length - t.data.length) ≠ t.data) :
    c₁ ++ s ≠ c₂ ++ t := by
  intro he
  have hd : c₁.data ++ s.data = c₂.data ++ t.data := by
    rw [← String.data_append, ← String.data_append, he]
  rcases Nat.le_total s.data.length t.data.length with hle | hle
  · apply hst
    have ht := (List.take_append_drop (t.data.length - s.data.length) t.data).symm
    rw [ht, ← List.append_assoc] at hd
    have hlen : s.data.length =
        (t.data.drop (t.data.length - s.data.length)).length := by
      rw [List.length_drop]; omega
    exact (List.append_inj' hd hlen).2.symm
  · apply hts
    have hs := (List.take_append_drop (s.data.length - t.data.length) s.data).symm
    rw [hs, ← List.append_assoc] at hd
    have hlen : (s.data.drop (s.data.length - t.data.length)).length =
        t.data.length := by
      rw [List.length_drop]; omega
    exact (List.append_inj' hd hlen).2

theorem string_append_left_ne (c s s' : String) (h : s ≠ s') :
    c ++ s ≠ c ++ s' := by
  intro he
  apply h
  have hd : c.data ++ s.data = c.data ++ s'.data := by
    rw [← String.data_append, ← String.data_append, he]
  exact congrArg String.mk (List.append_cancel_left hd)

theorem string_append_right_ne (c c' s : String) (h : c ≠ c') :
    c ++ s ≠ c' ++ s := by
  intro he
  apply h
  have hd : c.data ++ s.data = c'.data ++ s.data := by
    rw [← String.data_append, ← String.data_append, he]
  exact congrArg String.mk (List.append_cancel_right hd)

theorem lookup_append_left {α β : Type} [BEq α] (l₁ l₂ : List (α × β))
    (k : α) (v : β) (h : List.lookup k l₁ = some v) :
    List.lookup k (l₁ ++ l₂) = some v := by
  induction l₁ with
  | nil => simp [List.lookup] at h
  | cons p rest ih =>
    rw [List.cons_append]
    rw [List.lookup] at h ⊢
    cases hk : k == p.1 with
    | true => rw [hk] at h; exact h
    | false => rw [hk] at h; exact ih h

theorem lookup_append_right {α β : Type} [BEq α] (l₁ l₂ : List (α × β))
    (k : α) (h : List.lookup k l₁ = none) :
    List.lookup k (l₁ ++ l₂) = List.lookup k l₂ := by
  induction l₁ with
  | nil => rfl
  | cons p rest ih =>
    rw [List.cons_append]
    rw [List.lookup] at h ⊢
    cases hk : k == p.1 with
    | true => rw [hk] at h; simp at h
    | false => rw [hk] at h; exact ih h

/-- A category key never equals a fixed global key: no metric name is an
underscore-suffix of another (nor of a `_min`/`_max` key). -/
theorem cKey_ne_fixed (c : String) (m : Metric) (hm : m ∈ metricsList)
    (t : String)
    (h : ∀ m' ∈ metricsList,
      t.data.drop (t.data.length -
          ("_" ++ (metricName m' ++ "_mean")).data.length) ≠
        ("_" ++ (metricName m' ++ "_mean")).data) :
    (cKey c m == t) = false :=
  beq_eq_false_iff_ne.mpr (string_append_ne c _ t (h m hm))

/-- Distinct metrics give distinct keys within one category. -/
theorem cKey_ne_same_cat (c : String) (m m' : Metric)
    (h : ("_" ++ (metricName m ++ "_mean")) ≠
      ("_" ++ (metricName m' ++ "_mean"))) :
    (cKey c m == cKey c m') = false :=
  beq_eq_false_iff_ne.mpr (string_append_left_ne c _ _ h)

/-- Keys of distinct categories never collide, for any pair of metrics. -/
theorem cKey_ne_cross (c c' : String) (hcc : c ≠ c') (m m' : Metric)
    (hm : m ∈ metricsList) (hm' : m' ∈ metricsList) :
    (cKey c m == cKey c' m') = false := by
  refine beq_eq_false_iff_ne.mpr ?_
  simp only [metricsList] at hm hm'
  fin_cases hm <;> fin_cases hm' <;>
    first
      | exact string_append_right_ne c c' _ hcc
      | exact string_append_append_ne c c' _ _ (by decide) (by decide)

/-- A category key misses every fixed global entry. -/
theorem lookup_global_none (results : List EvalRecord) (c : String)
    (m : Metric) (hm : m ∈ metricsList) :
    (globalEntries results).lookup (cKey c m) = none := by
  simp [globalEntries, metricsList, metricName, List.lookup,
    cKey_ne_fixed c m hm "rouge1_f_mean" (by decide),
    cKey_ne_fixed c m hm "rouge1_f_min" (by decide),
    cKey_ne_fixed c m hm "rouge1_f_max" (by decide),
    cKey_ne_fixed c m hm "rouge2_f_mean" (by decide),
    cKey_ne_fixed c m hm "rouge2_f_min" (by decide),
    cKey_ne_fixed c m hm "rouge2_f_max" (by decide),
    cKey_ne_fixed c m hm "rougeL_f_mean" (by decide),
    cKey_ne_fixed c m hm "rougeL_f_min" (by decide),
    cKey_ne_fixed c m hm "rougeL_f_max" (by decide),
    cKey_ne_fixed c m hm "bleu_mean" (by decide),
    cKey_ne_fixed c m hm "bleu_min" (by decide),
    cKey_ne_fixed c m hm "bleu_max" (by decide),
    cKey_ne_fixed c m hm "keyword_overlap_mean" (by decide),
    cKey_ne_fixed c m hm "keyword_overlap_min" (by decide),
    cKey_ne_fixed c m hm "keyword_overlap_max" (by decide)]

/-- Looking a category's key up in the per-category block finds its
mean, for any value function of (category, metric). -/
theorem lookup_catBlock (f : String → Metric → ℚ) (c : String) (m : Metric)
    (hm : m ∈ metricsList) :
    ∀ cats : List String, c ∈ cats →
      (cats.flatMap (fun c' =>
          metricsList.map (fun m' => (cKey c' m', f c' m')))).lookup
          (cKey c m) = some (f c m) := by
  intro cats
  induction cats with
  | nil => intro hc; simp at hc
  | cons c' rest ih =>
    intro hc
    rw [List.flatMap_cons]
    by_cases hcc : c' = c
    · subst hcc
      apply lookup_append_left
      simp only [metricsList] at hm
      fin_cases hm <;>
        simp [metricsList, List.lookup,
          cKey_ne_same_cat c' Metric.rouge2_f Metric.rouge1_f (by decide),
          cKey_ne_same_cat c' Metric.rougeL_f Metric.rouge1_f (by decide),
          cKey_ne_same_cat c' Metric.rougeL_f Metric.rouge2_f (by decide),
          cKey_ne_same_cat c' Metric.bleu Metric.rouge1_f (by decide),
          cKey_ne_same_cat c' Metric.bleu Metric.rouge2_f (by decide),
          cKey_ne_same_cat c' Metric.bleu Metric.rougeL_f (by decide),
          cKey_ne_same_cat c' Metric.keyword_overlap Metric.rouge1_f (by decide),
          cKey_ne_same_cat c' Metric.keyword_overlap Metric.rouge2_f (by decide),
          cKey_ne_same_cat c' Metric.keyword_overlap Metric.rougeL_f (by decide),
          cKey_ne_same_cat c' Metric.keyword_overlap Metric.bleu (by decide)]
    · have hcm : c ∈ rest := by
        rcases List.mem_cons.mp hc with h | h
        · exact absurd h.symm hcc
        · exact h
      rw [lookup_append_right _ _ _ ?blockNone]
      · exact ih hcm
      case blockNone =>
        have hne : c ≠ c' := fun h => hcc h.symm
        simp [metricsList, List.lookup,
          cKey_ne_cross c c' hne m Metric.rouge1_f hm (by simp [metricsList]),
          cKey_ne_cross c c' hne m Metric.rouge2_f hm (by simp [metricsList]),
          cKey_ne_cross c c' hne m Metric.rougeL_f hm (by simp [metricsList]),
          cKey_ne_cross c c' hne m Metric.bleu hm (by simp [metricsList]),
          cKey_ne_cross c c' hne m Metric.keyword_overlap hm
            (by simp [metricsList])]

/-- C5: for non-empty record sequences the aggregate report is returned
normally and, for each scored metric, maps `{metric}_mean` to the
arithmetic mean of that metric over all records, carries `{metric}_min` /
`{metric}_max`, and maps each discovered category's
`{category}_{metric}_mean` to the mean over exactly the records of that
category. -/
theorem c5_aggregate_report (results : List EvalRecord)
    (h : results ≠ []) :
    calculate_aggregate_metrics results = Except.ok (aggEntries results) ∧
      ∀ m ∈ metricsList,
        ((aggEntries results).lookup (metricName m ++ "_mean") =
            some (globalMean results m) ∧
          (aggEntries results).lookup (metricName m ++ "_min") =
            some (listMinQ (metricValues results m)) ∧
          (aggEntries results).lookup (metricName m ++ "_max") =
            some (listMaxQ (metricValues results m))) ∧
        ∀ c ∈ categoriesOf results,
          (aggEntries results).lookup (cKey c m) =
            some (catMean results c m) := by
  refine ⟨?_, ?_⟩
  · unfold calculate_aggregate_metrics
    rw [if_neg (by simpa [List.length_eq_zero] using h)]
  · intro m hm
    refine ⟨⟨?_, ?_, ?_⟩, ?_⟩
    · unfold aggEntries
      apply lookup_append_left
      have hm' := hm
      simp only [metricsList] at hm'
      fin_cases hm' <;>
        simp [globalEntries, metricsList, metricName, List.lookup]
    · unfold aggEntries
      apply lookup_append_left
      have hm' := hm
      simp only [metricsList] at hm'
      fin_cases hm' <;>
        simp [globalEntries, metricsList, metricName, List.lookup]
    · unfold aggEntries
      apply lookup_append_left
      have hm' := hm
      simp only [metricsList] at hm'
      fin_cases hm' <;>
        simp [globalEntries, metricsList, metricName, List.lookup]
    · intro c hc
      unfold aggEntries
      rw [lookup_append_right _ _ _ (lookup_global_none results c m hm)]
      exact lookup_catBlock (catMean results) c m hm (categoriesOf results) hc

/-- C5 witness: the aggregate equations at a concrete singleton record
set. -/
theorem c5_aggregate_report_witness :
    ([(⟨1, 1, 1, 1, 1, "q", "e", "g", "general", 0, true⟩ : EvalRecord)] ≠
        ([] : List EvalRecord)) ∧
      calculate_aggregate_metrics
          [⟨1, 1, 1, 1, 1, "q", "e", "g", "general", 0, true⟩] =
        Except.ok (aggEntries
          [⟨1, 1, 1, 1, 1, "q", "e", "g", "general", 0, true⟩]) :=
  ⟨List.cons_ne_nil _ _,
    (c5_aggregate_report [⟨1, 1, 1, 1, 1, "q", "e", "g", "general", 0, true⟩]
      (List.cons_ne_nil _ _)).1⟩

end MatChatbot
